import Mathlib

/-!
Shallow embedding of the Metrics Derivation Engine (`DataProcessor` in
`src/services/DataLoader.ts`) of the rewrite-datatables-viewer repository.

Modelling conventions:
* JS numbers are exact rationals `ℚ` (the code performs only `+ - * /`,
  comparisons, `Math.floor`, `Math.round` and `Math.sqrt` on them);
* `Math.sqrt` is `Real.sqrt`;
* the `Infinity` produced by the scan/edit ratio is a dedicated sum type;
* nullable strings are `Option String`, with JS truthiness made explicit
  (both `null` and `""` are falsy);
* JS `Map` and `Set` (insertion-ordered, first occurrence kept) are
  association lists and duplicate-free lists;
* `Array.prototype.sort` with a numeric comparator is a stable ascending
  sort, embedded as `List.insertionSort (· ≤ ·)`.
-/

/-- JS truthiness of a nullable string: `null` and `""` are falsy. -/
def jsTruthy : Option String → Bool
  | none => false
  | some s => !(s == "")

/-- JS `a || b` restricted to nullable strings: `a` if truthy, else `b`. -/
def jsOr (a b : Option String) : Option String :=
  if jsTruthy a then a else b

/-- One row of `RecipeRunStats.csv` (interface `RecipeRunStats` in
`src/types/data.ts`): per-recipe counts and nanosecond timings. -/
structure RecipeRunStats where
  recipe : String
  sourceFileCount : ℚ
  sourceFileChangedCount : ℚ
  cumulativeScanningTime : ℚ
  percentile99ScanningTime : ℚ
  maxScanningTime : ℚ
  cumulativeEditTime : ℚ
  percentile99EditTime : ℚ
  maxEditTime : ℚ
deriving DecidableEq

/-- One row of `SourcesFileResults.csv` (interface `SourceFileResults`):
one file change made by one recipe in one cycle. -/
structure SourceFileResults where
  sourcePathBefore : Option String
  sourcePathAfter : Option String
  recipeChanges : String
  estimatedTimeSaving : ℚ
  cycle : ℚ
deriving DecidableEq

/-- Result record of `DataProcessor.calculateROIMetrics`. -/
structure ROIMetrics where
  totalTimeSaved : ℚ
  totalExecutionTime : ℚ
  roi : ℚ
  efficiency : ℚ
  impactPerFile : ℚ
  totalFilesProcessed : ℚ
  totalFilesChanged : ℕ
deriving DecidableEq

/-- `DataProcessor.calculateROIMetrics` (DataLoader.ts lines 307-348). -/
def calculateROIMetrics (recipeStats : List RecipeRunStats)
    (sourceResults : List SourceFileResults) : ROIMetrics :=
  let totalTimeSaved :=
    sourceResults.foldl (fun sum result => sum + result.estimatedTimeSaving) (0 : ℚ)
  let totalExecutionTime :=
    recipeStats.foldl (fun sum stats =>
      let scanTimeMs := stats.cumulativeScanningTime / 1000000
      let editTimeMs := stats.cumulativeEditTime / 1000000
      sum + (scanTimeMs + editTimeMs) / 1000) (0 : ℚ)
  let roi := if totalExecutionTime > 0 then totalTimeSaved / totalExecutionTime * 100 else 0
  let totalFilesProcessed :=
    recipeStats.foldl (fun sum stats => sum + stats.sourceFileCount) (0 : ℚ)
  let uniqueFilesChanged :=
    (((sourceResults.filter
          (fun result => jsTruthy (jsOr result.sourcePathAfter result.sourcePathBefore))).map
        (fun result => (jsOr result.sourcePathAfter result.sourcePathBefore).getD "")).dedup).length
  let efficiency :=
    if totalFilesProcessed > 0 then ((uniqueFilesChanged : ℚ) / totalFilesProcessed) * 100 else 0
  let impactPerFile :=
    if uniqueFilesChanged > 0 then totalTimeSaved / (uniqueFilesChanged : ℚ) else 0
  { totalTimeSaved := totalTimeSaved
    totalExecutionTime := totalExecutionTime
    roi := roi
    efficiency := efficiency
    impactPerFile := impactPerFile
    totalFilesProcessed := totalFilesProcessed
    totalFilesChanged := uniqueFilesChanged }

/-- Sample recipe-run record (2s scanning, 1s editing, in ns). -/
def rsSample : List RecipeRunStats :=
  [⟨"org.openrewrite.java.migrate.Foo", 10, 5, 2000000000, 0, 0, 1000000000, 0, 0⟩]

/-- Sample file-change record (30s saved in cycle 1). -/
def fsSample : List SourceFileResults :=
  [⟨some "A.java", some "A.java", "org.openrewrite.java.migrate.Foo", 30, 1⟩]

/-- The distinct-file count exactly as claim C6 words it: distinct values of
`sourcePathAfter ?? sourcePathBefore` (null-coalescing, so `sourcePathAfter`
whenever it is non-null) over the records where that value is non-null. -/
def nullishDistinctFiles (fs : List SourceFileResults) : ℕ :=
  ((fs.filterMap (fun r =>
      match r.sourcePathAfter with
      | some p => some p
      | none => r.sourcePathBefore)).dedup).length

/-- A nullable string with `""` demoted to `null` (JS truthiness). -/
def nonEmptyOpt : Option String → Option String
  | some p => if p = "" then none else some p
  | none => none

/-- The first of `sourcePathAfter`, `sourcePathBefore` that is non-null and
non-empty, if any. -/
def truthyPath (r : SourceFileResults) : Option String :=
  match nonEmptyOpt r.sourcePathAfter with
  | some p => some p
  | none => nonEmptyOpt r.sourcePathBefore

/-- Distinct-file count as claim C6 must read on the code: distinct values of
the first non-null, non-empty path among `sourcePathAfter`, `sourcePathBefore`
over the records having such a path. -/
def truthyDistinctFiles (fs : List SourceFileResults) : ℕ :=
  ((fs.filterMap truthyPath).dedup).length

/-- Two file-change records that JS `||` and `??` distinguish: the first has
an empty-string `sourcePathAfter` and the second the path `"x"`. -/
def fsNullish : List SourceFileResults :=
  [⟨some "x", some "", "r", 0, 0⟩, ⟨none, some "x", "r", 0, 0⟩]

/-- A JS number that may be the `Infinity` produced by dividing a positive
number by zero; every other value of interest is a finite rational. -/
inductive JsRatio where
  | fin (q : ℚ)
  | posInf
deriving DecidableEq

/-- Result record of `DataProcessor.enrichRecipeStats`: the input record's
fields (the JS object spread `...stats`) plus the derived metrics. -/
structure RecipePerformanceMetrics extends RecipeRunStats where
  totalExecutionTimeMs : ℚ
  scanEditRatio : JsRatio
  changeEfficiency : ℚ
  totalTimeSaved : ℚ
  recipeROI : ℚ
deriving DecidableEq

/-- `DataProcessor.enrichRecipeStats` (DataLoader.ts lines 353-389). -/
def enrichRecipeStats (recipeStats : List RecipeRunStats)
    (sourceResults : List SourceFileResults) : List RecipePerformanceMetrics :=
  recipeStats.map fun stats =>
    let totalExecutionTimeMs :=
      (stats.cumulativeScanningTime + stats.cumulativeEditTime) / 1000000
    let scanEditRatio :=
      if stats.cumulativeEditTime > 0 then
        JsRatio.fin (stats.cumulativeScanningTime / stats.cumulativeEditTime)
      else if stats.cumulativeScanningTime > 0 then JsRatio.posInf
      else JsRatio.fin 0
    let changeEfficiency :=
      if stats.sourceFileCount > 0 then
        (stats.sourceFileChangedCount / stats.sourceFileCount) * 100
      else 0
    let totalTimeSaved :=
      (sourceResults.filter (fun result => result.recipeChanges == stats.recipe)).foldl
        (fun sum result => sum + result.estimatedTimeSaving) (0 : ℚ)
    let executionTimeSec := totalExecutionTimeMs / 1000
    let recipeROI :=
      if executionTimeSec > 0 then totalTimeSaved / executionTimeSec * 100 else 0
    { toRecipeRunStats := stats
      totalExecutionTimeMs := totalExecutionTimeMs
      scanEditRatio := scanEditRatio
      changeEfficiency := changeEfficiency
      totalTimeSaved := totalTimeSaved
      recipeROI := recipeROI }

/-- A single recipe-run record with all-zero timings. -/
def rsZero : List RecipeRunStats := [⟨"r", 0, 0, 0, 0, 0, 0, 0, 0⟩]

/-- The pattern is a prefix of the character list. -/
def charsStartWith : List Char → List Char → Bool
  | [], _ => true
  | _ :: _, [] => false
  | a :: pat, b :: l => a == b && charsStartWith pat l

/-- The pattern occurs contiguously in the character list. -/
def charsContain (pat : List Char) : List Char → Bool
  | [] => charsStartWith pat []
  | b :: l => charsStartWith pat (b :: l) || charsContain pat l

/-- JS `s.includes(pat)`. -/
def strContains (s pat : String) : Bool :=
  charsContain pat.toList s.toList

/-- Accumulating worker for `jsSplitDot`. -/
def splitDotAux (cur : List Char) : List Char → List String
  | [] => [String.mk cur.reverse]
  | c :: rest =>
    if c == '.' then String.mk cur.reverse :: splitDotAux [] rest
    else splitDotAux (c :: cur) rest

/-- JS `recipeName.split('.')`: `""` gives `[""]`, separators at the ends or
next to each other give empty segments. -/
def jsSplitDot (s : String) : List String :=
  splitDotAux [] s.toList

/-- `DataProcessor.extractChangeType` (DataLoader.ts lines 577-596). -/
def extractChangeType (recipeName : String) : String :=
  if recipeName == "" then "Unknown"
  else if strContains recipeName "migrate" then "Migration"
  else if strContains recipeName "OrderImports" then "Import Organization"
  else if strContains recipeName "StringFormatted" then "String Formatting"
  else if strContains recipeName "CompositeRecipe" then "Composite"
  else if strContains recipeName "security" then "Security"
  else if strContains recipeName "junit" then "Testing"
  else if strContains recipeName "logging" then "Logging"
  else
    let parts := jsSplitDot recipeName
    if parts.length > 2 then
      let seg := parts.getD (parts.length - 2) ""
      if seg == "" then "Other" else seg
    else "Other"

/-- The ordered substring-test table of claim C4, first match winning. -/
def classifyTable : List (String × String) :=
  [("migrate", "Migration"), ("OrderImports", "Import Organization"),
   ("StringFormatted", "String Formatting"), ("CompositeRecipe", "Composite"),
   ("security", "Security"), ("junit", "Testing"), ("logging", "Logging")]

/-- The label of the first table entry whose pattern occurs in the name. -/
def firstMatch (recipeName : String) : List (String × String) → Option String
  | [] => none
  | p :: rest =>
    if strContains recipeName p.1 then some p.2 else firstMatch recipeName rest

/-- Classification exactly as claim C4 words it: the ordered substring tests
with first match winning, otherwise the second-to-last dot-separated segment
when there are more than 2 segments, otherwise `"Other"`; an empty name gives
`"Unknown"`. -/
def claimClassify (recipeName : String) : String :=
  if recipeName == "" then "Unknown"
  else
    match firstMatch recipeName classifyTable with
    | some label => label
    | none =>
      let parts := jsSplitDot recipeName
      if parts.length > 2 then parts.getD (parts.length - 2) "" else "Other"

/-- Claim C4 amended only at the fallback: an empty second-to-last segment
falls through to `"Other"` (the code's `parts[parts.length - 2] || 'Other'`). -/
def claimClassifyAmended (recipeName : String) : String :=
  if recipeName == "" then "Unknown"
  else
    match firstMatch recipeName classifyTable with
    | some label => label
    | none =>
      let parts := jsSplitDot recipeName
      if parts.length > 2 then
        if parts.getD (parts.length - 2) "" == "" then "Other"
        else parts.getD (parts.length - 2) ""
      else "Other"

/-- A JS `Set` of strings: insertion-ordered, an already-present value is
ignored. -/
def setAdd (l : List String) (x : String) : List String :=
  if l.contains x then l else l ++ [x]

/-- The per-bucket accumulator of `aggregateByChangeType`. -/
structure AggData where
  filesAffected : List String
  timeSaved : ℚ
  executionTime : ℚ
  recipes : List String
deriving DecidableEq

/-- Result record of `DataProcessor.aggregateByChangeType`. -/
structure ChangeTypeAggregation where
  changeType : String
  filesAffected : ℕ
  timeSaved : ℚ
  executionTime : ℚ
  recipes : List String
deriving DecidableEq

/-- One step of the file-change pass of `aggregateByChangeType`: create the
bucket of the record's change type if missing, then fold the record into it
(`filesAffected` only for a truthy `sourcePathAfter`). -/
def processSourceResult (m : List (String × AggData))
    (result : SourceFileResults) : List (String × AggData) :=
  let changeType := extractChangeType result.recipeChanges
  let m' :=
    if m.any (fun e => e.1 == changeType) then m
    else m ++ [(changeType, ⟨[], 0, 0, []⟩)]
  m'.map fun e =>
    if e.1 == changeType then
      (e.1,
        { filesAffected :=
            if jsTruthy result.sourcePathAfter then
              setAdd e.2.filesAffected (result.sourcePathAfter.getD "")
            else e.2.filesAffected
          timeSaved := e.2.timeSaved + result.estimatedTimeSaving
          executionTime := e.2.executionTime
          recipes := setAdd e.2.recipes result.recipeChanges })
    else e

/-- One step of the recipe-stats pass of `aggregateByChangeType`: add the
record's execution time to the bucket of its change type if that bucket
exists, and do nothing otherwise. -/
def addExecTime (m : List (String × AggData)) (stats : RecipeRunStats) :
    List (String × AggData) :=
  let changeType := extractChangeType stats.recipe
  m.map fun e =>
    if e.1 == changeType then
      (e.1, { e.2 with executionTime := e.2.executionTime
          + (stats.cumulativeScanningTime + stats.cumulativeEditTime) / 1000000 })
    else e

/-- `DataProcessor.aggregateByChangeType` (DataLoader.ts lines 394-444). -/
def aggregateByChangeType (recipeStats : List RecipeRunStats)
    (sourceResults : List SourceFileResults) : List ChangeTypeAggregation :=
  let m := sourceResults.foldl processSourceResult []
  let m' := recipeStats.foldl addExecTime m
  m'.map fun e =>
    ⟨e.1, e.2.filesAffected.length, e.2.timeSaved, e.2.executionTime, e.2.recipes⟩

/-- The execution time (ms) of the recipe-run records classified to change
type `k`. -/
def execSum (k : String) (rs : List RecipeRunStats) : ℚ :=
  ((rs.filter (fun s => k == extractChangeType s.recipe)).map
    (fun s => (s.cumulativeScanningTime + s.cumulativeEditTime) / 1000000)).sum

/-- The single bucket produced by the sample data. -/
def sampleBucket : ChangeTypeAggregation :=
  ⟨"Migration", 1, 30, 3000, ["org.openrewrite.java.migrate.Foo"]⟩

/-- The per-cycle accumulator of `calculateTimeSeries`. -/
structure CycleData where
  timeSaved : ℚ
  files : List String
  recipes : List String
deriving DecidableEq

/-- One step of the cycle-grouping pass of `calculateTimeSeries`: create the
cycle's group if missing, then fold the record into it. -/
def processCycleResult (m : List (ℚ × CycleData))
    (result : SourceFileResults) : List (ℚ × CycleData) :=
  let m' :=
    if m.any (fun e => e.1 == result.cycle) then m
    else m ++ [(result.cycle, ⟨0, [], []⟩)]
  m'.map fun e =>
    if e.1 == result.cycle then
      (e.1,
        { timeSaved := e.2.timeSaved + result.estimatedTimeSaving
          files :=
            if jsTruthy result.sourcePathAfter then
              setAdd e.2.files (result.sourcePathAfter.getD "")
            else e.2.files
          recipes := setAdd e.2.recipes result.recipeChanges })
    else e

/-- One output row of `DataProcessor.calculateTimeSeries`. -/
structure TimeSeriesEntry where
  cycle : ℚ
  cumulativeTimeSaved : ℚ
  filesChanged : ℕ
  recipes : List String
deriving DecidableEq

/-- The running-cumulative pass of `calculateTimeSeries` (the stateful
`cycles.map` with the `cumulativeTimeSaved` accumulator). -/
def cumulate (acc : ℚ) : List (ℚ × CycleData) → List TimeSeriesEntry
  | [] => []
  | e :: rest =>
    ⟨e.1, acc + e.2.timeSaved, e.2.files.length, e.2.recipes⟩ ::
      cumulate (acc + e.2.timeSaved) rest

/-- `DataProcessor.calculateTimeSeries` (DataLoader.ts lines 474-524):
group by cycle, sort the groups by ascending cycle number (`(a, b) => a - b`
comparator, stable), then accumulate the cumulative time saved. -/
def calculateTimeSeries (sourceResults : List SourceFileResults) :
    List TimeSeriesEntry :=
  let cycleMap := sourceResults.foldl processCycleResult []
  let sortedCycles :=
    List.insertionSort (fun a b : ℚ × CycleData => a.1 ≤ b.1) cycleMap
  cumulate 0 sortedCycles

instance : IsTotal (ℚ × CycleData) (fun a b => a.1 ≤ b.1) :=
  ⟨fun a b => le_total a.1 b.1⟩

instance : IsTrans (ℚ × CycleData) (fun a b => a.1 ≤ b.1) :=
  ⟨fun _ _ _ => le_trans⟩

/-- Two file-change records whose second cycle has a negative estimated
time saving. -/
def fsNegative : List SourceFileResults :=
  [⟨none, none, "r", 1, 0⟩, ⟨none, none, "r", -1, 1⟩]

/-- JS `Math.round`: half-up rounding. -/
def jsRound (q : ℚ) : ℤ := ⌊q + 1 / 2⌋

/-- JS `%` on the non-negative left operands `formatDuration` feeds it
(for `a ≥ 0`, `b > 0` JS truncation and flooring agree). -/
def jsMod (a b : ℚ) : ℚ := a - b * (⌊a / b⌋ : ℚ)

/-- `DataProcessor.formatDuration` (DataLoader.ts lines 560-572). -/
def formatDuration (seconds : ℚ) : String :=
  if seconds < 60 then
    toString (jsRound seconds) ++ "s"
  else if seconds < 3600 then
    let minutes := ⌊seconds / 60⌋
    let remainingSeconds := jsRound (jsMod seconds 60)
    toString minutes ++ "min " ++ toString remainingSeconds ++ "s"
  else
    let hours := ⌊seconds / 3600⌋
    let minutes := ⌊jsMod seconds 3600 / 60⌋
    toString hours ++ "h " ++ toString minutes ++ "min"

/-- Result record of `DataProcessor.calculateDistributionStats`; `stdDev`
is a real number because the code takes a square root. -/
structure DistributionStats where
  mean : ℚ
  median : ℚ
  min : ℚ
  max : ℚ
  stdDev : ℝ
  percentile95 : ℚ

/-- `DataProcessor.calculateDistributionStats` (DataLoader.ts lines
601-633): sorts a copy ascending, then mean, parity-based median,
population variance (divide by `N`), `stdDev = sqrt(variance)` and the
nearest-rank 95th percentile at index `floor(0.95 * N)`; every array access
carries the code's `|| 0` fallback. -/
noncomputable def calculateDistributionStats (values : List ℚ) :
    DistributionStats :=
  if values.length = 0 then ⟨0, 0, 0, 0, 0, 0⟩
  else
    let sorted := List.insertionSort (· ≤ ·) values
    let mean := values.foldl (fun sum val => sum + val) (0 : ℚ) / values.length
    let median :=
      if sorted.length % 2 = 0 then
        (sorted.getD (sorted.length / 2 - 1) 0
          + sorted.getD (sorted.length / 2) 0) / 2
      else sorted.getD (sorted.length / 2) 0
    let variance :=
      values.foldl (fun sum val => sum + (val - mean) ^ 2) (0 : ℚ) / values.length
    let percentile95Index := (⌊(sorted.length : ℚ) * (95 / 100)⌋).toNat
    { mean := mean
      median := median
      min := sorted.getD 0 0
      max := sorted.getD (sorted.length - 1) 0
      stdDev := Real.sqrt (variance : ℝ)
      percentile95 := sorted.getD percentile95Index 0 }

/-- Folding an accumulating sum is summing a mapped list. -/
theorem foldl_add_eq_sum {α : Type} (f : α → ℚ) :
    ∀ (l : List α) (a : ℚ), l.foldl (fun s x => s + f x) a = a + (l.map f).sum := by
  intro l
  induction l with
  | nil => simp
  | cons x xs ih =>
    intro a
    simp only [List.foldl_cons, List.map_cons, List.sum_cons, ih]
    ring

/-- C1: `calculateROIMetrics` sums `estimatedTimeSaving` into `totalTimeSaved`,
sums `(cumulativeScanningTime + cumulativeEditTime) / 1e9` into
`totalExecutionTime`, and returns `roi = totalTimeSaved / totalExecutionTime * 100`
when `totalExecutionTime > 0` and `roi = 0` when it is `0`; the function is
total, so no error is ever raised. -/
theorem calculateROIMetrics_roi_spec (rs : List RecipeRunStats)
    (fs : List SourceFileResults) :
    (calculateROIMetrics rs fs).totalTimeSaved
        = (fs.map (fun r => r.estimatedTimeSaving)).sum ∧
      (calculateROIMetrics rs fs).totalExecutionTime
        = (rs.map (fun s =>
            (s.cumulativeScanningTime + s.cumulativeEditTime) / 1000000000)).sum ∧
      (0 < (calculateROIMetrics rs fs).totalExecutionTime →
        (calculateROIMetrics rs fs).roi
          = (calculateROIMetrics rs fs).totalTimeSaved
              / (calculateROIMetrics rs fs).totalExecutionTime * 100) ∧
      ((calculateROIMetrics rs fs).totalExecutionTime = 0 →
        (calculateROIMetrics rs fs).roi = 0) := by
  have hexec : (rs.map (fun s =>
        (s.cumulativeScanningTime / 1000000 + s.cumulativeEditTime / 1000000) / 1000))
      = rs.map (fun s =>
        (s.cumulativeScanningTime + s.cumulativeEditTime) / 1000000000) := by
    refine List.map_congr_left fun s _ => ?_
    rw [div_add_div_same, div_div]
    norm_num
  simp only [calculateROIMetrics, foldl_add_eq_sum, zero_add, hexec]
  refine ⟨trivial, trivial, fun h => ?_, fun h => ?_⟩
  · rw [if_pos h]
  · rw [h, if_neg (lt_irrefl 0)]

/-- Filtering then mapping is a `filterMap` when the option function agrees. -/
theorem filter_map_eq_filterMap {α β : Type} (p : α → Bool) (f : α → β)
    (g : α → Option β) (h : ∀ x, g x = if p x then some (f x) else none) :
    ∀ l : List α, (l.filter p).map f = l.filterMap g := by
  intro l
  induction l with
  | nil => simp
  | cons x xs ih =>
    by_cases hx : p x <;>
      simp [List.filter_cons, hx, List.filterMap_cons, h x, ih]

/-- Pointwise agreement between the code's truthiness-based path choice and
`truthyPath`. -/
theorem truthyPath_eq (r : SourceFileResults) :
    truthyPath r
      = if jsTruthy (jsOr r.sourcePathAfter r.sourcePathBefore)
          then some ((jsOr r.sourcePathAfter r.sourcePathBefore).getD "")
          else none := by
  rcases r with ⟨before, after, _, _, _⟩
  cases after with
  | none =>
    cases before with
    | none => rfl
    | some q =>
      by_cases hq : q = "" <;>
        simp [truthyPath, nonEmptyOpt, jsOr, jsTruthy, hq]
  | some p =>
    by_cases hp : p = ""
    · cases before with
      | none => simp [truthyPath, nonEmptyOpt, jsOr, jsTruthy, hp]
      | some q =>
        by_cases hq : q = "" <;>
          simp [truthyPath, nonEmptyOpt, jsOr, jsTruthy, hp, hq]
    · simp [truthyPath, nonEmptyOpt, jsOr, jsTruthy, hp]

/-- C6 counterexample: the code counts with JS `||` (truthiness), not `??`
(null-coalescing).  On `fsNullish` the code sees the single distinct path
`"x"`, while the claim's `sourcePathAfter ?? sourcePathBefore` rule sees the
two distinct values `""` and `"x"`. -/
theorem totalFilesChanged_nullish_counterexample :
    (calculateROIMetrics [] fsNullish).totalFilesChanged = 1 ∧
      nullishDistinctFiles fsNullish = 2 ∧
      (calculateROIMetrics [] fsNullish).totalFilesChanged
        ≠ nullishDistinctFiles fsNullish := by
  refine ⟨?_, by decide, ?_⟩ <;> decide

/-- C6 (amended): `totalFilesChanged` counts the distinct values of the first
non-null and non-empty of `sourcePathAfter`, `sourcePathBefore` (JS
truthiness) over the records having such a value, and never exceeds the
number of FileChangeRecords. -/
theorem totalFilesChanged_truthy_distinct (rs : List RecipeRunStats)
    (fs : List SourceFileResults) :
    (calculateROIMetrics rs fs).totalFilesChanged = truthyDistinctFiles fs ∧
      (calculateROIMetrics rs fs).totalFilesChanged ≤ fs.length := by
  have hlist : ((fs.filter
        (fun r => jsTruthy (jsOr r.sourcePathAfter r.sourcePathBefore))).map
          (fun r => (jsOr r.sourcePathAfter r.sourcePathBefore).getD ""))
      = fs.filterMap truthyPath :=
    filter_map_eq_filterMap _ _ _ (fun r => truthyPath_eq r) fs
  constructor
  · simp only [calculateROIMetrics, truthyDistinctFiles, hlist]
  · simp only [calculateROIMetrics]
    refine le_trans (List.Sublist.length_le (List.dedup_sublist _)) ?_
    rw [List.length_map]
    exact List.length_filter_le _ _

/-- C2: for the `i`-th record `r` of the input, the `i`-th output of
`enrichRecipeStats` has `scanEditRatio = r.cumulativeScanningTime /
r.cumulativeEditTime` when `r.cumulativeEditTime > 0`, positive infinity when
the edit time is `0` and the scanning time is positive, and `0` when both are
`0` — in which case `totalExecutionTimeMs` is `0` as well. -/
theorem enrichRecipeStats_scanEditRatio_spec (rs : List RecipeRunStats)
    (fs : List SourceFileResults) (i : ℕ) (hi : i < rs.length)
    (hi2 : i < (enrichRecipeStats rs fs).length) :
    (0 < (rs.get ⟨i, hi⟩).cumulativeEditTime →
        ((enrichRecipeStats rs fs).get ⟨i, hi2⟩).scanEditRatio
          = JsRatio.fin ((rs.get ⟨i, hi⟩).cumulativeScanningTime
              / (rs.get ⟨i, hi⟩).cumulativeEditTime)) ∧
      ((rs.get ⟨i, hi⟩).cumulativeEditTime = 0 →
        0 < (rs.get ⟨i, hi⟩).cumulativeScanningTime →
        ((enrichRecipeStats rs fs).get ⟨i, hi2⟩).scanEditRatio = JsRatio.posInf) ∧
      ((rs.get ⟨i, hi⟩).cumulativeEditTime = 0 →
        (rs.get ⟨i, hi⟩).cumulativeScanningTime = 0 →
        ((enrichRecipeStats rs fs).get ⟨i, hi2⟩).scanEditRatio = JsRatio.fin 0 ∧
          ((enrichRecipeStats rs fs).get ⟨i, hi2⟩).totalExecutionTimeMs = 0) := by
  simp only [enrichRecipeStats, List.get_eq_getElem, List.getElem_map]
  refine ⟨fun h => ?_, fun he hs => ?_, fun he hs => ?_⟩
  · rw [if_pos h]
  · rw [if_neg (by rw [he]; exact lt_irrefl 0), if_pos hs]
  · rw [if_neg (by rw [he]; exact lt_irrefl 0),
      if_neg (by rw [hs]; exact lt_irrefl 0)]
    refine ⟨rfl, ?_⟩
    rw [he, hs]
    norm_num

/-- C2 witness: on the all-zero record the ratio is the finite `0` and the
total execution time is `0`. -/
theorem enrichRecipeStats_scanEditRatio_spec_witness :
    ((enrichRecipeStats rsZero []).get
        ⟨0, by simp [enrichRecipeStats, rsZero]⟩).scanEditRatio = JsRatio.fin 0 ∧
      ((enrichRecipeStats rsZero []).get
        ⟨0, by simp [enrichRecipeStats, rsZero]⟩).totalExecutionTimeMs = 0 :=
  (enrichRecipeStats_scanEditRatio_spec rsZero [] 0 (by simp [rsZero])
    (by simp [enrichRecipeStats, rsZero])).2.2 rfl rfl

/-- C4 counterexample: `"a..b"` has more than 2 dot-separated segments, and
its second-to-last segment is `""`; the code returns `"Other"`, not that
segment as the claim states. -/
theorem extractChangeType_empty_segment_counterexample :
    extractChangeType "a..b" = "Other" ∧ claimClassify "a..b" = "" ∧
      extractChangeType "a..b" ≠ claimClassify "a..b" := by
  refine ⟨?_, ?_, ?_⟩ <;> decide

set_option maxHeartbeats 1600000 in
/-- C4 (amended): the classification is the ordered substring-test table with
first match winning, then the second-to-last dot-separated segment when there
are more than 2 segments and that segment is non-empty, otherwise `"Other"`;
an empty name gives `"Unknown"`.  `"org.openrewrite.java.migrate.Foo"`
classifies as `"Migration"` and `"com.acme.tools.Bar"` as `"tools"`. -/
theorem extractChangeType_classification_amended :
    (∀ recipeName, extractChangeType recipeName = claimClassifyAmended recipeName) ∧
      extractChangeType "org.openrewrite.java.migrate.Foo" = "Migration" ∧
      extractChangeType "com.acme.tools.Bar" = "tools" ∧
      extractChangeType "" = "Unknown" := by
  refine ⟨fun recipeName => ?_, by decide, by decide, by decide⟩
  simp only [extractChangeType, claimClassifyAmended, classifyTable, firstMatch]
  split_ifs <;> rfl

/-- Membership in a conditional append. -/
theorem mem_ite_append {α : Type} {c : Prop} [Decidable c] {m t : List α}
    {a : α} (h : a ∈ (if c then m else m ++ t)) : a ∈ m ∨ a ∈ t := by
  split at h
  · exact Or.inl h
  · exact List.mem_append.mp h

/-- The recipe-stats pass only rewrites `executionTime`, adding to each
already-present bucket the execution time classified to its key. -/
theorem foldl_addExecTime (rs : List RecipeRunStats) :
    ∀ m : List (String × AggData),
      rs.foldl addExecTime m
        = m.map fun e =>
            (e.1, { e.2 with executionTime := e.2.executionTime + execSum e.1 rs }) := by
  induction rs with
  | nil =>
    intro m
    rw [List.foldl_nil]
    symm
    calc m.map (fun e =>
          (e.1, { e.2 with executionTime := e.2.executionTime + execSum e.1 [] }))
        = m.map id := List.map_congr_left fun e _ => by simp [execSum]
      _ = m := List.map_id m
  | cons s rs ih =>
    intro m
    rw [List.foldl_cons, ih, addExecTime, List.map_map]
    refine List.map_congr_left fun e _ => ?_
    simp only [Function.comp_apply]
    cases hb : (e.1 == extractChangeType s.recipe) with
    | true => simp [hb, execSum, List.filter_cons, add_assoc]
    | false => simp [hb, execSum, List.filter_cons]

/-- Adding to a JS string set never empties it. -/
theorem setAdd_ne_nil (l : List String) (x : String) : setAdd l x ≠ [] := by
  cases l with
  | nil => simp [setAdd]
  | cons a t =>
    unfold setAdd
    split <;> simp

/-- One step of the file-change pass, seen through membership: every bucket
of `processSourceResult m r` comes from a bucket of `m` with the same key,
or carries the change type of `r` as its key. -/
theorem mem_processSourceResult {m : List (String × AggData)}
    {r : SourceFileResults} {e : String × AggData}
    (he : e ∈ processSourceResult m r) :
    (∃ b ∈ m, b.1 = e.1 ∧
        (e.2.executionTime = b.2.executionTime) ∧
        (e.2.recipes = b.2.recipes ∨ e.2.recipes = setAdd b.2.recipes r.recipeChanges)) ∨
      (e.1 = extractChangeType r.recipeChanges ∧ e.2.executionTime = 0 ∧
        e.2.recipes = setAdd [] r.recipeChanges) := by
  simp only [processSourceResult, List.mem_map] at he
  rcases he with ⟨b, hb, rfl⟩
  rcases mem_ite_append hb with hb' | hb'
  · left
    refine ⟨b, hb', ?_⟩
    cases hcl : (b.1 == extractChangeType r.recipeChanges) with
    | true => simp [hcl]
    | false => simp [hcl]
  · right
    rcases List.mem_singleton.mp hb' with rfl
    simp

/-- Keys reachable from the file-change pass: every bucket key was present
already or is the change type of one of the processed records. -/
theorem foldl_processSourceResult_keys (fs : List SourceFileResults) :
    ∀ (m : List (String × AggData)) (e : String × AggData),
      e ∈ fs.foldl processSourceResult m →
      (∃ b ∈ m, b.1 = e.1) ∨
        ∃ r ∈ fs, extractChangeType r.recipeChanges = e.1 := by
  induction fs with
  | nil =>
    intro m e he
    exact Or.inl ⟨e, he, rfl⟩
  | cons r fs ih =>
    intro m e he
    rw [List.foldl_cons] at he
    rcases ih (processSourceResult m r) e he with h | h
    · rcases h with ⟨e', he', hk⟩
      rcases mem_processSourceResult he' with ⟨b, hb, hk', _⟩ | ⟨hk', _⟩
      · exact Or.inl ⟨b, hb, hk'.trans hk⟩
      · exact Or.inr ⟨r, List.mem_cons_self r fs, hk' ▸ hk⟩
    · rcases h with ⟨r', hr', hk⟩
      exact Or.inr ⟨r', List.mem_cons_of_mem r hr', hk⟩

/-- The file-change pass leaves every bucket's `executionTime` at `0`. -/
theorem foldl_processSourceResult_exec (fs : List SourceFileResults) :
    ∀ m : List (String × AggData),
      (∀ e ∈ m, e.2.executionTime = 0) →
      ∀ e ∈ fs.foldl processSourceResult m, e.2.executionTime = 0 := by
  induction fs with
  | nil => intro m hm e he; exact hm e he
  | cons r fs ih =>
    intro m hm e he
    rw [List.foldl_cons] at he
    refine ih (processSourceResult m r) ?_ e he
    intro a ha
    rcases mem_processSourceResult ha with ⟨b, hb, _, hexec, _⟩ | ⟨_, hexec, _⟩
    · exact hexec.trans (hm b hb)
    · exact hexec

/-- The file-change pass leaves every bucket with a non-empty recipe set. -/
theorem foldl_processSourceResult_recipes (fs : List SourceFileResults) :
    ∀ m : List (String × AggData),
      (∀ e ∈ m, e.2.recipes ≠ []) →
      ∀ e ∈ fs.foldl processSourceResult m, e.2.recipes ≠ [] := by
  induction fs with
  | nil => intro m hm e he; exact hm e he
  | cons r fs ih =>
    intro m hm e he
    rw [List.foldl_cons] at he
    refine ih (processSourceResult m r) ?_ e he
    intro a ha
    rcases mem_processSourceResult ha with ⟨b, hb, _, _, hrec | hrec⟩ | ⟨_, _, hrec⟩
    · exact hrec ▸ hm b hb
    · exact hrec ▸ setAdd_ne_nil _ _
    · exact hrec ▸ setAdd_ne_nil _ _

/-- Every output bucket of `aggregateByChangeType` is an end-of-first-pass
bucket with the execution time classified to its key added. -/
theorem aggregateByChangeType_mem (rs : List RecipeRunStats)
    (fs : List SourceFileResults) (b : ChangeTypeAggregation)
    (hb : b ∈ aggregateByChangeType rs fs) :
    ∃ e ∈ fs.foldl processSourceResult [],
      b.changeType = e.1 ∧
        b.executionTime = e.2.executionTime + execSum e.1 rs ∧
        b.recipes = e.2.recipes := by
  simp only [aggregateByChangeType, foldl_addExecTime, List.map_map,
    List.mem_map] at hb
  rcases hb with ⟨e, he, rfl⟩
  exact ⟨e, he, rfl, rfl, rfl⟩

/-- C3: buckets of `aggregateByChangeType` exist only for change types of
some FileChangeRecord; each bucket's `executionTime` is exactly the sum of
`(cumulativeScanningTime + cumulativeEditTime) / 1e6` over the
RecipeRunRecords classifying to it; and a recipe whose change type matches
no FileChangeRecord has no bucket, so its execution time appears nowhere. -/
theorem aggregateByChangeType_executionTime_spec (rs : List RecipeRunStats)
    (fs : List SourceFileResults) :
    (∀ b ∈ aggregateByChangeType rs fs,
        ∃ r ∈ fs, extractChangeType r.recipeChanges = b.changeType) ∧
      (∀ b ∈ aggregateByChangeType rs fs,
        b.executionTime
          = ((rs.filter
                (fun s => b.changeType == extractChangeType s.recipe)).map
              (fun s =>
                (s.cumulativeScanningTime + s.cumulativeEditTime) / 1000000)).sum) ∧
      (∀ s ∈ rs,
        (∀ r ∈ fs,
          extractChangeType r.recipeChanges ≠ extractChangeType s.recipe) →
        ∀ b ∈ aggregateByChangeType rs fs,
          b.changeType ≠ extractChangeType s.recipe) := by
  have ha : ∀ b ∈ aggregateByChangeType rs fs,
      ∃ r ∈ fs, extractChangeType r.recipeChanges = b.changeType := by
    intro b hb
    rcases aggregateByChangeType_mem rs fs b hb with ⟨e, he, hk, _, _⟩
    rcases foldl_processSourceResult_keys fs [] e he with ⟨b', hb', _⟩ | ⟨r, hr, hcl⟩
    · exact absurd hb' (List.not_mem_nil b')
    · exact ⟨r, hr, hk ▸ hcl⟩
  refine ⟨ha, fun b hb => ?_, fun s _ hnone b hb hcl => ?_⟩
  · rcases aggregateByChangeType_mem rs fs b hb with ⟨e, he, hk, hexec, _⟩
    have he0 : e.2.executionTime = 0 :=
      foldl_processSourceResult_exec fs []
        (fun e' he' => absurd he' (List.not_mem_nil e')) e he
    rw [hexec, he0, zero_add, ← hk, execSum]
  · rcases ha b hb with ⟨r, hr, hcls⟩
    exact hnone r hr (hcls.trans hcl)

/-- C10: every bucket returned by `aggregateByChangeType` has a non-empty
`recipes` list: a bucket is created only by a FileChangeRecord, which
immediately adds its `recipeChanges` name to the bucket's recipe set. -/
theorem aggregateByChangeType_recipes_nonempty (rs : List RecipeRunStats)
    (fs : List SourceFileResults) (b : ChangeTypeAggregation)
    (hb : b ∈ aggregateByChangeType rs fs) : b.recipes ≠ [] := by
  rcases aggregateByChangeType_mem rs fs b hb with ⟨e, he, _, _, hrec⟩
  have : e.2.recipes ≠ [] :=
    foldl_processSourceResult_recipes fs []
      (fun e' he' => absurd he' (List.not_mem_nil e')) e he
  exact hrec ▸ this

/-- On the sample data the aggregation is the single `"Migration"` bucket. -/
theorem aggregate_sample_eval :
    aggregateByChangeType rsSample fsSample = [sampleBucket] := by
  have hct : extractChangeType "org.openrewrite.java.migrate.Foo" = "Migration" := by
    decide
  simp [aggregateByChangeType, processSourceResult, addExecTime, rsSample,
    fsSample, sampleBucket, setAdd, jsTruthy, hct]
  norm_num

/-- The sample bucket is a member of the sample aggregation. -/
theorem sampleBucket_mem :
    sampleBucket ∈ aggregateByChangeType rsSample fsSample := by
  rw [aggregate_sample_eval]
  exact List.mem_singleton.mpr rfl

/-- C3 witness: the sample bucket's execution time is exactly the matching
execution-time sum over the sample recipe-run records. -/
theorem aggregateByChangeType_executionTime_spec_witness :
    sampleBucket.executionTime
      = ((rsSample.filter
            (fun s => sampleBucket.changeType == extractChangeType s.recipe)).map
          (fun s =>
            (s.cumulativeScanningTime + s.cumulativeEditTime) / 1000000)).sum :=
  (aggregateByChangeType_executionTime_spec rsSample fsSample).2.1
    sampleBucket sampleBucket_mem

/-- C10 witness: the sample bucket is in the output and its recipe list is
non-empty. -/
theorem aggregateByChangeType_recipes_nonempty_witness :
    sampleBucket ∈ aggregateByChangeType rsSample fsSample ∧
      sampleBucket.recipes ≠ [] :=
  ⟨sampleBucket_mem,
    aggregateByChangeType_recipes_nonempty rsSample fsSample
      sampleBucket sampleBucket_mem⟩

/-- One step of the cycle-grouping pass, seen through membership. -/
theorem mem_processCycleResult {m : List (ℚ × CycleData)}
    {r : SourceFileResults} {e : ℚ × CycleData}
    (he : e ∈ processCycleResult m r) :
    (∃ b ∈ m, b.1 = e.1 ∧
        (e.2.timeSaved = b.2.timeSaved ∨
          e.2.timeSaved = b.2.timeSaved + r.estimatedTimeSaving)) ∨
      (e.1 = r.cycle ∧ e.2.timeSaved = 0 + r.estimatedTimeSaving) := by
  simp only [processCycleResult, List.mem_map] at he
  rcases he with ⟨b, hb, rfl⟩
  rcases mem_ite_append hb with hb' | hb'
  · left
    refine ⟨b, hb', ?_⟩
    cases hcl : (b.1 == r.cycle) with
    | true => simp [hcl]
    | false => simp [hcl]
  · right
    rcases List.mem_singleton.mp hb' with rfl
    simp

/-- The cycle-grouping step only appends the new cycle number to the keys,
and only when it is not present yet. -/
theorem keys_processCycleResult (m : List (ℚ × CycleData))
    (r : SourceFileResults) :
    (processCycleResult m r).map (fun e => e.1)
      = if m.any (fun e => e.1 == r.cycle) then m.map (fun e => e.1)
        else m.map (fun e => e.1) ++ [r.cycle] := by
  by_cases hany : (m.any fun e => e.1 == r.cycle) = true
  · rw [if_pos hany]
    simp only [processCycleResult, if_pos hany, List.map_map]
    refine List.map_congr_left fun e _ => ?_
    simp only [Function.comp_apply]
    split <;> rfl
  · rw [if_neg hany]
    simp only [processCycleResult, if_neg hany, List.map_map, List.map_append]
    congr 1
    · refine List.map_congr_left fun e _ => ?_
      simp only [Function.comp_apply]
      split <;> rfl
    · simp only [List.map_cons, List.map_nil, Function.comp_apply]
      congr 1
      split <;> rfl

/-- The cycle-grouping pass keeps the cycle keys duplicate-free. -/
theorem foldl_processCycleResult_nodup (fs : List SourceFileResults) :
    ∀ m : List (ℚ × CycleData),
      (m.map (fun e => e.1)).Nodup →
      ((fs.foldl processCycleResult m).map (fun e => e.1)).Nodup := by
  induction fs with
  | nil => intro m hm; exact hm
  | cons r fs ih =>
    intro m hm
    rw [List.foldl_cons]
    refine ih (processCycleResult m r) ?_
    rw [keys_processCycleResult]
    split
    · exact hm
    · rename_i hany
      rw [List.nodup_append]
      refine ⟨hm, List.nodup_singleton _, ?_⟩
      intro k hk hk'
      rcases List.mem_singleton.mp hk' with rfl
      rcases List.mem_map.mp hk with ⟨b, hb, hbk⟩
      have : m.any (fun e => e.1 == r.cycle) = true :=
        List.any_eq_true.mpr ⟨b, hb, by rw [hbk]; exact beq_self_eq_true _⟩
      exact hany this

/-- With non-negative savings, the cycle-grouping pass keeps every group's
`timeSaved` non-negative. -/
theorem foldl_processCycleResult_nonneg (fs : List SourceFileResults)
    (hfs : ∀ r ∈ fs, 0 ≤ r.estimatedTimeSaving) :
    ∀ m : List (ℚ × CycleData),
      (∀ e ∈ m, 0 ≤ e.2.timeSaved) →
      ∀ e ∈ fs.foldl processCycleResult m, 0 ≤ e.2.timeSaved := by
  induction fs with
  | nil => intro m hm e he; exact hm e he
  | cons r fs ih =>
    intro m hm e he
    rw [List.foldl_cons] at he
    have hr : 0 ≤ r.estimatedTimeSaving := hfs r (List.mem_cons_self r fs)
    refine ih (fun x hx => hfs x (List.mem_cons_of_mem r hx))
      (processCycleResult m r) ?_ e he
    intro a ha
    rcases mem_processCycleResult ha with ⟨b, hb, _, hts | hts⟩ | ⟨_, hts⟩
    · exact hts ▸ hm b hb
    · exact hts ▸ add_nonneg (hm b hb) hr
    · exact hts ▸ add_nonneg le_rfl hr

/-- Every cumulated entry takes its cycle number from a group. -/
theorem mem_cumulate :
    ∀ (l : List (ℚ × CycleData)) (a : ℚ) (y : TimeSeriesEntry),
      y ∈ cumulate a l → ∃ x ∈ l, y.cycle = x.1 := by
  intro l
  induction l with
  | nil => intro a y hy; cases hy
  | cons e rest ih =>
    intro a y hy
    rcases List.mem_cons.mp hy with rfl | hy'
    · exact ⟨e, List.mem_cons_self e rest, rfl⟩
    · rcases ih _ y hy' with ⟨x, hx, hxy⟩
      exact ⟨x, List.mem_cons_of_mem e hx, hxy⟩

/-- Cumulating preserves strict ascent of the cycle numbers. -/
theorem pairwise_cumulate :
    ∀ (l : List (ℚ × CycleData)) (a : ℚ),
      List.Pairwise (fun x y => x.1 < y.1) l →
      List.Pairwise (fun x y => x.cycle < y.cycle) (cumulate a l) := by
  intro l
  induction l with
  | nil => intro a _; exact List.Pairwise.nil
  | cons e rest ih =>
    intro a hp
    rcases List.pairwise_cons.mp hp with ⟨he, hrest⟩
    refine List.pairwise_cons.mpr ⟨?_, ih _ hrest⟩
    intro y hy
    rcases mem_cumulate rest _ y hy with ⟨x, hx, hxy⟩
    rw [hxy]
    exact he x hx

/-- With non-negative per-group savings, the cumulative time saved never
decreases between consecutive entries. -/
theorem chain_cumulate :
    ∀ (l : List (ℚ × CycleData)) (a : ℚ),
      (∀ e ∈ l, 0 ≤ e.2.timeSaved) →
      List.Chain' (fun x y => x.cumulativeTimeSaved ≤ y.cumulativeTimeSaved)
        (cumulate a l) := by
  intro l
  induction l with
  | nil => intro a _; exact List.chain'_nil
  | cons e rest ih =>
    intro a hl
    cases rest with
    | nil => exact List.chain'_singleton _
    | cons f rest' =>
      rw [cumulate, cumulate, List.chain'_cons]
      constructor
      · have hf : 0 ≤ f.2.timeSaved :=
          hl f (List.mem_cons_of_mem e (List.mem_cons_self f rest'))
        exact le_add_of_nonneg_right hf
      · rw [← cumulate]
        exact ih _ (fun x hx => hl x (List.mem_cons_of_mem e hx))

/-- On `fsNegative` the series is cycle 0 with cumulative 1, then cycle 1
with cumulative 0. -/
theorem calculateTimeSeries_negative_eval :
    calculateTimeSeries fsNegative
      = [⟨0, 1, 0, ["r"]⟩, ⟨1, 0, 0, ["r"]⟩] := by
  simp [calculateTimeSeries, processCycleResult, cumulate, fsNegative,
    setAdd, jsTruthy, List.insertionSort, List.orderedInsert]

/-- C7 counterexample: with a negative `estimatedTimeSaving` in the later
cycle, consecutive `cumulativeTimeSaved` values decrease (1 then 0). -/
theorem calculateTimeSeries_negative_counterexample :
    ¬ List.Chain' (fun a b => a.cumulativeTimeSaved ≤ b.cumulativeTimeSaved)
        (calculateTimeSeries fsNegative) := by
  rw [calculateTimeSeries_negative_eval]
  intro h
  rcases List.chain'_cons.mp h with ⟨hle, _⟩
  norm_num at hle

/-- C7 (amended): the series returned by `calculateTimeSeries` is strictly
ascending in cycle number, and — provided every record's
`estimatedTimeSaving` is non-negative — its `cumulativeTimeSaved` values are
non-decreasing between consecutive entries. -/
theorem calculateTimeSeries_sorted_monotone (fs : List SourceFileResults) :
    List.Pairwise (fun a b => a.cycle < b.cycle) (calculateTimeSeries fs) ∧
      ((∀ r ∈ fs, 0 ≤ r.estimatedTimeSaving) →
        List.Chain' (fun a b => a.cumulativeTimeSaved ≤ b.cumulativeTimeSaved)
          (calculateTimeSeries fs)) := by
  have hperm :
      (List.insertionSort (fun a b : ℚ × CycleData => a.1 ≤ b.1)
          (fs.foldl processCycleResult [])).Perm
        (fs.foldl processCycleResult []) :=
    List.perm_insertionSort _ _
  constructor
  · refine pairwise_cumulate _ 0 ?_
    have hsorted :
        List.Pairwise (fun a b : ℚ × CycleData => a.1 ≤ b.1)
          (List.insertionSort (fun a b : ℚ × CycleData => a.1 ≤ b.1)
            (fs.foldl processCycleResult [])) :=
      List.sorted_insertionSort _ _
    have hnodup :
        ((List.insertionSort (fun a b : ℚ × CycleData => a.1 ≤ b.1)
            (fs.foldl processCycleResult [])).map (fun e => e.1)).Nodup := by
      rw [List.Perm.nodup_iff (List.Perm.map _ hperm)]
      exact foldl_processCycleResult_nodup fs [] List.nodup_nil
    have hne : List.Pairwise (fun a b : ℚ × CycleData => a.1 ≠ b.1)
        (List.insertionSort (fun a b : ℚ × CycleData => a.1 ≤ b.1)
          (fs.foldl processCycleResult [])) :=
      List.pairwise_map.mp hnodup
    exact (hsorted.and hne).imp fun h => lt_of_le_of_ne h.1 h.2
  · intro hfs
    refine chain_cumulate _ 0 ?_
    intro e he
    exact foldl_processCycleResult_nonneg fs hfs []
      (fun x hx => absurd hx (List.not_mem_nil x)) e
      ((hperm.mem_iff).mp he)

/-- C7 witness: on the sample data (non-negative saving) the cumulative
series is non-decreasing. -/
theorem calculateTimeSeries_sorted_monotone_witness :
    List.Chain' (fun a b => a.cumulativeTimeSaved ≤ b.cumulativeTimeSaved)
      (calculateTimeSeries fsSample) :=
  (calculateTimeSeries_sorted_monotone fsSample).2 (by
    intro r hr
    rcases List.mem_singleton.mp hr with rfl
    norm_num)

/-- C8: duration formatting is three-tier — `"{round(s)}s"` below 60,
`"{floor(s/60)}min {round(s%60)}s"` below 3600, and
`"{floor(s/3600)}h {floor((s%3600)/60)}min"` from 3600 on — and
`formatDuration` maps 45 to `"45s"`, 125 to `"2min 5s"` and 3725 to
`"1h 2min"`. -/
theorem formatDuration_spec :
    (∀ s : ℚ, s < 60 → formatDuration s = toString (jsRound s) ++ "s") ∧
      (∀ s : ℚ, 60 ≤ s → s < 3600 →
        formatDuration s
          = toString (⌊s / 60⌋ : ℤ) ++ "min "
              ++ toString (jsRound (jsMod s 60)) ++ "s") ∧
      (∀ s : ℚ, 3600 ≤ s →
        formatDuration s
          = toString (⌊s / 3600⌋ : ℤ) ++ "h "
              ++ toString (⌊jsMod s 3600 / 60⌋ : ℤ) ++ "min") ∧
      formatDuration 45 = "45s" ∧
      formatDuration 125 = "2min 5s" ∧
      formatDuration 3725 = "1h 2min" := by
  have h1 : ∀ s : ℚ, s < 60 → formatDuration s = toString (jsRound s) ++ "s" := by
    intro s h
    rw [formatDuration, if_pos h]
  have h2 : ∀ s : ℚ, 60 ≤ s → s < 3600 →
      formatDuration s
        = toString (⌊s / 60⌋ : ℤ) ++ "min "
            ++ toString (jsRound (jsMod s 60)) ++ "s" := by
    intro s ha hb
    rw [formatDuration, if_neg (not_lt.mpr ha), if_pos hb]
  have h3 : ∀ s : ℚ, 3600 ≤ s →
      formatDuration s
        = toString (⌊s / 3600⌋ : ℤ) ++ "h "
            ++ toString (⌊jsMod s 3600 / 60⌋ : ℤ) ++ "min" := by
    intro s h
    rw [formatDuration, if_neg (not_lt.mpr (le_trans (by norm_num) h)),
      if_neg (not_lt.mpr h)]
  refine ⟨h1, h2, h3, ?_, ?_, ?_⟩
  · rw [h1 45 (by norm_num), jsRound]
    norm_num
    rfl
  · rw [h2 125 (by norm_num) (by norm_num), jsMod, jsRound]
    norm_num
    rfl
  · rw [h3 3725 (by norm_num), jsMod]
    norm_num
    rfl

/-- C8 witness: the first tier applied at 45 seconds. -/
theorem formatDuration_spec_witness :
    (45 : ℚ) < 60 ∧ formatDuration 45 = toString (jsRound 45) ++ "s" :=
  ⟨by norm_num, formatDuration_spec.1 45 (by norm_num)⟩

/-- In a `≤`-sorted list every element is at most the last one. -/
theorem sorted_le_getLast :
    ∀ (l : List ℚ) (hl : l ≠ []), l.Sorted (· ≤ ·) →
      ∀ x ∈ l, x ≤ l.getLast hl := by
  intro l
  induction l with
  | nil => intro hl; exact absurd rfl hl
  | cons a t ih =>
    intro _ hs x hx
    rcases List.sorted_cons.mp hs with ⟨ha, ht⟩
    cases t with
    | nil =>
      rcases List.mem_singleton.mp hx with rfl
      exact le_of_eq (List.getLast_singleton x _).symm
    | cons b t' =>
      rw [List.getLast_cons (List.cons_ne_nil b t')]
      rcases List.mem_cons.mp hx with rfl | hx'
      · exact ha _ (List.getLast_mem (List.cons_ne_nil b t'))
      · exact ih (List.cons_ne_nil b t') ht x hx'

/-- In a `≤`-sorted non-empty list the head is a member below everything. -/
theorem sorted_head_spec (l : List ℚ) (hs : l.Sorted (· ≤ ·)) (hne : l ≠ []) :
    l.getD 0 0 ∈ l ∧ ∀ x ∈ l, l.getD 0 0 ≤ x := by
  cases l with
  | nil => exact absurd rfl hne
  | cons a t =>
    rcases List.sorted_cons.mp hs with ⟨ha, _⟩
    refine ⟨List.mem_cons_self a t, ?_⟩
    intro x hx
    rcases List.mem_cons.mp hx with rfl | hx'
    · exact le_refl x
    · exact ha x hx'

/-- In a `≤`-sorted non-empty list the entry at index `length - 1` is a
member above everything. -/
theorem sorted_last_spec (l : List ℚ) (hs : l.Sorted (· ≤ ·)) (hne : l ≠ []) :
    l.getD (l.length - 1) 0 ∈ l ∧ ∀ x ∈ l, x ≤ l.getD (l.length - 1) 0 := by
  have hlen : l.length - 1 < l.length := by
    have : 0 < l.length := List.length_pos.mpr hne
    omega
  have hd : l.getD (l.length - 1) 0 = l.getLast hne := by
    rw [List.getD_eq_getElem _ _ hlen, List.getLast_eq_getElem]
  rw [hd]
  exact ⟨List.getLast_mem hne, sorted_le_getLast l hne hs⟩

/-- C5: on a non-empty input and for any sorted permutation `sl` of it,
`calculateDistributionStats` returns the arithmetic mean, the
parity-based median of the sorted values, the minimum, the maximum, the
population standard deviation (square root of the sum of squared deviations
divided by `N`, not `N - 1`), and the 95th percentile at sorted index
`floor(0.95 * N)`; the empty input yields the all-zero record and `[5]`
yields `5` everywhere with `stdDev = 0`. -/
theorem calculateDistributionStats_spec (values sl : List ℚ)
    (hne : values ≠ []) (hperm : sl.Perm values)
    (hsort : sl.Sorted (· ≤ ·)) :
    (calculateDistributionStats values).mean
        = values.sum / values.length ∧
      (calculateDistributionStats values).median
        = (if values.length % 2 = 0 then
            (sl.getD (values.length / 2 - 1) 0
              + sl.getD (values.length / 2) 0) / 2
          else sl.getD (values.length / 2) 0) ∧
      ((calculateDistributionStats values).min ∈ values ∧
        ∀ x ∈ values, (calculateDistributionStats values).min ≤ x) ∧
      ((calculateDistributionStats values).max ∈ values ∧
        ∀ x ∈ values, x ≤ (calculateDistributionStats values).max) ∧
      (calculateDistributionStats values).stdDev
        = Real.sqrt
            (((values.map
                (fun v => (v - values.sum / values.length) ^ 2)).sum
              / values.length : ℚ)) ∧
      (calculateDistributionStats values).percentile95
        = sl.getD (⌊(values.length : ℚ) * (95 / 100)⌋).toNat 0 ∧
      calculateDistributionStats [] = ⟨0, 0, 0, 0, 0, 0⟩ ∧
      calculateDistributionStats [5] = ⟨5, 5, 5, 5, 0, 5⟩ := by
  have hlen0 : values.length ≠ 0 := fun h => hne (List.length_eq_zero.mp h)
  have hsl : sl = List.insertionSort (· ≤ ·) values :=
    List.eq_of_perm_of_sorted
      (hperm.trans (List.perm_insertionSort _ _).symm) hsort
      (List.sorted_insertionSort _ _)
  have hslne : sl ≠ [] := by
    intro h
    apply hlen0
    rw [← hperm.length_eq, h]
    rfl
  have hmean : values.foldl (fun sum val => sum + val) (0 : ℚ)
      = values.sum := by
    have := foldl_add_eq_sum (fun v : ℚ => v) values 0
    simpa using this
  have hempty : calculateDistributionStats [] = ⟨0, 0, 0, 0, 0, 0⟩ := by
    simp [calculateDistributionStats]
  have hfive : calculateDistributionStats [5] = ⟨5, 5, 5, 5, 0, 5⟩ := by
    rw [calculateDistributionStats, if_neg (by norm_num)]
    simp only [List.insertionSort, List.orderedInsert]
    norm_num
  have hvar : values.foldl
        (fun sum val => sum + (val - values.sum / values.length) ^ 2) (0 : ℚ)
      = (values.map (fun v => (v - values.sum / values.length) ^ 2)).sum := by
    have := foldl_add_eq_sum
      (fun v : ℚ => (v - values.sum / values.length) ^ 2) values 0
    simpa using this
  have hhead := sorted_head_spec sl hsort hslne
  have hlast := sorted_last_spec sl hsort hslne
  rw [hperm.length_eq] at hlast
  rw [calculateDistributionStats, if_neg hlen0]
  simp only [hmean, ← hsl, hperm.length_eq]
  refine ⟨trivial, trivial, ?_, ?_, ?_, trivial, hempty, hfive⟩
  · exact ⟨hperm.subset hhead.1, fun x hx => hhead.2 x (hperm.mem_iff.mpr hx)⟩
  · exact ⟨hperm.subset hlast.1, fun x hx => hlast.2 x (hperm.mem_iff.mpr hx)⟩
  · rw [hvar]

/-- C5 witness: the mean clause applied to the singleton `[5]`. -/
theorem calculateDistributionStats_spec_witness :
    (calculateDistributionStats [5]).mean
      = ([5] : List ℚ).sum / ([5] : List ℚ).length :=
  (calculateDistributionStats_spec [5] [5] (by decide)
    (List.Perm.refl _) (List.sorted_singleton 5)).1

/-- C1 witness: on the sample data the execution time is positive and the
ROI equals the stated quotient. -/
theorem calculateROIMetrics_roi_spec_witness :
    0 < (calculateROIMetrics rsSample fsSample).totalExecutionTime ∧
      (calculateROIMetrics rsSample fsSample).roi
        = (calculateROIMetrics rsSample fsSample).totalTimeSaved
            / (calculateROIMetrics rsSample fsSample).totalExecutionTime * 100 := by
  have h : 0 < (calculateROIMetrics rsSample fsSample).totalExecutionTime := by
    norm_num [calculateROIMetrics, rsSample, fsSample]
  exact ⟨h, (calculateROIMetrics_roi_spec rsSample fsSample).2.2.1 h⟩
